import Mathlib

set_option maxRecDepth 100000

/-!
Verification development for the sample-reconciliation and compliance engine
of the metal chemical-composition analyzer (`src/app.py`).

The Python code is shallowly embedded: strings are `List Char` / `String`,
Python floats are exact rationals (`ℚ`), Python dicts with dynamic keys are
insertion-ordered association lists, and the regular expressions of the source
(which are all of a simple deterministic shape) are embedded as explicit
left-to-right scanners.  Rational values produced by embedded code are built
with `mkRat` and compared with the order on `ℚ` only, so every embedded
function evaluates inside the kernel.
-/

/-- Whitespace class of Python's `\s` (ASCII part; the protocol labels use
ordinary spaces). -/
def isPySpace (c : Char) : Bool :=
  c = ' ' || c = '\t' || c = '\n' || c = '\r' || c.toNat = 11 || c.toNat = 12

/-- Word-character class of Python's `\w`, restricted to the alphabets this
program's inputs use: ASCII letters and digits, underscore, and the Cyrillic
block U+0400–U+04FF. -/
def isWordChar (c : Char) : Bool :=
  c.isDigit || c.isAlpha || c = '_' || (0x400 ≤ c.toNat && c.toNat ≤ 0x4FF)

/-- Substring test: Python's `pat in s` on strings. -/
def containsSub (s pat : List Char) : Bool :=
  if pat.isPrefixOf s then true
  else
    match s with
    | [] => false
    | _ :: t => containsSub t pat

/-- Fuel-driven body of `pyReplace`; the fuel is the length of the string,
which suffices because the pattern is nonempty so each step consumes at least
one character. -/
def replaceAllF (pat rep : List Char) : Nat → List Char → List Char
  | _, [] => []
  | 0, s => s
  | n + 1, c :: rest =>
    if !pat.isEmpty && pat.isPrefixOf (c :: rest) then
      rep ++ replaceAllF pat rep n ((c :: rest).drop pat.length)
    else
      c :: replaceAllF pat rep n rest

/-- Python's `str.replace`: replace every non-overlapping occurrence of `pat`
by `rep`, scanning left to right. -/
def pyReplace (s pat rep : List Char) : List Char :=
  replaceAllF pat rep s.length s

/-- Numeric value of a digit string, as Python's `int`. -/
def digitsToNat (ds : List Char) : Nat :=
  ds.foldl (fun n c => 10 * n + (c.toNat - 48)) 0

/-- State machine extracting the tokens of Python's `re.findall(r'\b\d+\b', s)`:
maximal digit runs whose neighbours (when present) are not word characters.
`cur` is the reversed run being collected and `valid` records whether the run
started at a word boundary. -/
def tokensGo : Bool → List Char → Bool → List Char → List (List Char)
  | _, cur, valid, [] => if !cur.isEmpty && valid then [cur.reverse] else []
  | prevW, cur, valid, c :: rest =>
    if c.isDigit then
      if cur.isEmpty then tokensGo true [c] (!prevW) rest
      else tokensGo true (c :: cur) valid rest
    else
      (if !cur.isEmpty && valid && !isWordChar c then [cur.reverse] else []) ++
        tokensGo (isWordChar c) [] true rest

/-- Tokens of `re.findall(r'\b\d+\b', s)` in order of occurrence. -/
def bareTokens (s : List Char) : List (List Char) :=
  tokensGo false [] true s

/-- Match a literal character sequence at the head of `s`, returning the rest. -/
def matchLits : List Char → List Char → Option (List Char)
  | [], s => some s
  | _, [] => none
  | l :: ls, c :: rest => if c = l then matchLits ls rest else none

/-- Greedy `\s*`. -/
def skipWs (s : List Char) : List Char :=
  s.dropWhile isPySpace

/-- Greedy `\d+` split: the digit run at the head and the rest. -/
def digitsSplit (s : List Char) : List Char × List Char :=
  (s.takeWhile Char.isDigit, s.dropWhile Char.isDigit)

/-- Leftmost-match regex search: try the single-position matcher `m` at every
suffix, leftmost first, as Python's `re.search`. -/
def reSearch (m : List Char → Option (List Char)) : List Char → Option (List Char)
  | [] => none
  | c :: t =>
    match m (c :: t) with
    | some r => some r
    | none => reSearch m t

/-- Matcher at one position for `тр\.\s*№?\s*(\d+)`: the optional `№` and the
whitespace classes are disjoint from each other and from digits, so the greedy
left-to-right scan needs no backtracking. -/
def patTrDotNum (s : List Char) : Option (List Char) :=
  match matchLits ['т', 'р', '.'] s with
  | none => none
  | some r1 =>
    let r2 := skipWs r1
    let r3 := match r2 with
      | '№' :: t => t
      | _ => r2
    let p := digitsSplit (skipWs r3)
    if p.1.isEmpty then none else some p.1

/-- Matcher at one position for `тр\s*(\d+)`. -/
def patTrNum (s : List Char) : Option (List Char) :=
  match matchLits ['т', 'р'] s with
  | none => none
  | some r1 =>
    let p := digitsSplit (skipWs r1)
    if p.1.isEmpty then none else some p.1

/-- Matcher at one position for `труба\s*(\d+)`. -/
def patTrubaNum (s : List Char) : Option (List Char) :=
  match matchLits ['т', 'р', 'у', 'б', 'а'] s with
  | none => none
  | some r1 =>
    let p := digitsSplit (skipWs r1)
    if p.1.isEmpty then none else some p.1

/-- Matcher at one position for `тр\.\s*(\d+)`. -/
def patTrDotPlain (s : List Char) : Option (List Char) :=
  match matchLits ['т', 'р', '.'] s with
  | none => none
  | some r1 =>
    let p := digitsSplit (skipWs r1)
    if p.1.isEmpty then none else some p.1

/-- Matcher at one position for `\((\d+)\)`. -/
def patParen (s : List Char) : Option (List Char) :=
  match matchLits ['('] s with
  | none => none
  | some r1 =>
    let p := digitsSplit r1
    if p.1.isEmpty then none
    else
      match p.2 with
      | ')' :: _ => some p.1
      | _ => none

/-- Matcher at one position for `\s+(\d+)\)` (used on the canonical side). -/
def patWsNumParen (s : List Char) : Option (List Char) :=
  match s with
  | c :: t =>
    if isPySpace c then
      let p := digitsSplit (skipWs t)
      if p.1.isEmpty then none
      else
        match p.2 with
        | ')' :: _ => some p.1
        | _ => none
    else none
  | [] => none

/-- Ordered explicit pattern list of `extract_tube_number_from_protocol`
(source lines 156–162), each wrapped as a leftmost `re.search`. -/
def protocolPatterns : List (List Char → Option (List Char)) :=
  [reSearch patTrDotNum, reSearch patTrNum, reSearch patTrubaNum,
   reSearch patTrDotPlain, reSearch patParen]

/-- Python's `max(numbers, key=int)`: the first token of maximal integer
value (the fold replaces the best only on a strictly larger value). -/
def maxTok (n : List Char) (ns : List (List Char)) : List Char :=
  ns.foldl (fun best t => if digitsToNat t > digitsToNat best then t else best) n

/-- Last element of a nonempty token list, as `matches[-1]`. -/
def lastTok (n : List Char) (ns : List (List Char)) : List Char :=
  ns.getLastD n

/-- Embedding of `SampleNameMatcher.extract_tube_number_from_protocol`
(source lines 153–175): the explicit patterns in order, then the
maximum-valued bare integer, then `None`. -/
def extract_tube_number_from_protocol (s : String) : Option String :=
  match protocolPatterns.findSome? (fun p => p s.toList) with
  | some d => some (String.mk d)
  | none =>
    match bareTokens s.toList with
    | [] => none
    | n :: ns => some (String.mk (maxTok n ns))

/-- Embedding of `SampleNameMatcher.extract_tube_number_from_correct`
(source lines 73–90): parenthesized digits first, then digits before `)`,
then the last bare integer, then `None`.  The first element of a `findall`
result is its leftmost match, so the two `findall(...)[0]` steps are
leftmost searches. -/
def extract_tube_number_from_correct (s : String) : Option String :=
  match reSearch patParen s.toList with
  | some d => some (String.mk d)
  | none =>
    match reSearch patWsNumParen s.toList with
    | some d => some (String.mk d)
    | none =>
      match bareTokens s.toList with
      | [] => none
      | n :: ns => some (String.mk (lastTok n ns))

/-- Length of the common run of two lists starting at their heads. -/
def runLen : List Char → List Char → Nat
  | a :: as, b :: bs => if a = b then runLen as bs + 1 else 0
  | _, _ => 0

/-- Longest matching block of difflib's `SequenceMatcher.find_longest_match`
with no junk: the longest common contiguous run, earliest in `a`, then
earliest in `b` (the fold replaces the best only on a strictly longer run,
scanning `i` then `j` in ascending order).  Returns `(i, j, size)`. -/
def findLongest (a b : List Char) : Nat × Nat × Nat :=
  (List.range a.length).foldl
    (fun best i =>
      (List.range b.length).foldl
        (fun best j =>
          let k := runLen (a.drop i) (b.drop j)
          if k > best.2.2 then (i, j, k) else best)
        best)
    (0, 0, 0)

/-- Total size of the matching blocks of `SequenceMatcher.get_matching_blocks`:
recursively take the longest matching block and recurse on the pieces to its
left and right.  The fuel dominates the length of `a`, which shrinks strictly
in every recursive call. -/
def matchSum : Nat → List Char → List Char → Nat
  | 0, _, _ => 0
  | fuel + 1, a, b =>
    let r := findLongest a b
    if r.2.2 = 0 then 0
    else
      matchSum fuel (a.take r.1) (b.take r.2.1) + r.2.2 +
        matchSum fuel (a.drop (r.1 + r.2.2)) (b.drop (r.2.1 + r.2.2))

/-- Total matched size `M` between two strings, with enough fuel. -/
def simM (a b : List Char) : Nat :=
  matchSum (a.length + 1) a b

/-- Value of `SequenceMatcher(None, a, b).ratio()` as an exact rational:
`2*M/(len a + len b)`, and `1` when both strings are empty (difflib's
`_calculate_ratio`).  The Python code computes this as a float; on the short
names involved the float comparison against `0.7` agrees with the exact one. -/
def similarQ (a b : List Char) : ℚ :=
  if a.length + b.length = 0 then mkRat 1 1
  else mkRat (2 * simM a b) (a.length + b.length)

/-- Threshold test `similar(a, b) > 0.7` of the source, stated over integers
(`2M/T > 7/10` iff `20M > 7T` for `T > 0`) so that it evaluates in the
kernel; both-empty strings count as above threshold (ratio 1). -/
def simAbove (a b : List Char) : Bool :=
  a.length + b.length = 0 || 7 * (a.length + b.length) < 20 * simM a b

/-- Replacement table of `SampleNameMatcher.normalize_roman_numerals`
(source lines 112–127), applied in order; the `I` characters are Latin. -/
def romanReplacements : List (List Char × List Char) :=
  [(" НД-I".toList, " НД-1".toList),
   (" НД-II".toList, " НД-2".toList),
   (" НД-I ".toList, " НД-1 ".toList),
   (" НД-II ".toList, " НД-2 ".toList),
   ("КПП НД-I".toList, "КПП НД-1".toList),
   ("КПП НД-II".toList, "КПП НД-2".toList),
   ("НД-I".toList, "НД-1".toList),
   ("НД-II".toList, "НД-2".toList),
   ("I".toList, "1".toList),
   ("II".toList, "2".toList),
   ("IIст".toList, "II".toList),
   ("Iст".toList, "I".toList),
   ("-IIст".toList, "-II".toList),
   ("-Iст".toList, "-I".toList)]

/-- Embedding of `SampleNameMatcher.normalize_roman_numerals`: fold the
replacement table over the text with Python's `str.replace`. -/
def normalize_roman_numerals (text : List Char) : List Char :=
  romanReplacements.foldl (fun res pr => pyReplace res pr.1 pr.2) text

/-- Surface-type dictionary of `SampleNameMatcher.__init__` (source lines
17–24), in insertion order. -/
def surfaceTypes : List (String × List String) :=
  [("ЭПК", ["ЭПК"]),
   ("ШПП", ["ШПП"]),
   ("ПС КШ", ["ПС КШ", "ПТ КШ", "труба_ПТКМ", "труба ПТКМ", "ПТКМ", "труба"]),
   ("КПП ВД", ["КПП ВД", "ВД"]),
   ("КПП НД-1", ["КПП НД-1", "КПП НД-I", "НД-1", "НД-I"]),
   ("КПП НД-2", ["КПП НД-2", "КПП НД-II", "НД-2", "НД-II", "КПП НД-IIст", "НД-IIст"])]

/-- First pass of `extract_surface_type`: return the first surface type one of
whose normalized aliases is a substring of the normalized name. -/
def findSubstrMatch (nn : List Char) : List (String × List String) → Option String
  | [] => none
  | (st, pats) :: rest =>
    if pats.any (fun p => containsSub nn (normalize_roman_numerals p.toList)) then some st
    else findSubstrMatch nn rest

/-- Second pass of `extract_surface_type`: return the first surface type one of
whose normalized aliases has similarity ratio above 0.7 with the normalized
name, in dictionary iteration order. -/
def findSimilarMatch (nn : List Char) : List (String × List String) → Option String
  | [] => none
  | (st, pats) :: rest =>
    if pats.any (fun p => simAbove (normalize_roman_numerals p.toList) nn) then some st
    else findSimilarMatch nn rest

/-- Embedding of `SampleNameMatcher.extract_surface_type` (source lines
92–108): substring pass over the alias dictionary, then the similarity
fallback, else `None`. -/
def extract_surface_type (name : String) : Option String :=
  match findSubstrMatch (normalize_roman_numerals name.toList) surfaceTypes with
  | some st => some st
  | none => findSimilarMatch (normalize_roman_numerals name.toList) surfaceTypes

/-- Test for the character class `[А-Г]` (Cyrillic А through Г). -/
def isLetterAG (c : Char) : Bool :=
  0x410 ≤ c.toNat && c.toNat ≤ 0x413

/-- Matcher at one position for `Н[_\s\-]?([А-Г])`: the optional separator
class is disjoint from `[А-Г]`, so the greedy scan needs no backtracking. -/
def patLetterSep (s : List Char) : Option (List Char) :=
  match s with
  | 'Н' :: t =>
    let t2 := match t with
      | c :: r => if c = '_' || isPySpace c || c = '-' then r else t
      | [] => t
    match t2 with
    | c :: _ => if isLetterAG c then some [c] else none
    | [] => none
  | _ => none

/-- Matcher at one position for `Н([А-Г])[_\s]`. -/
def patLetterTrail (s : List Char) : Option (List Char) :=
  match s with
  | 'Н' :: c :: d :: _ =>
    if isLetterAG c && (d = '_' || isPySpace d) then some [c] else none
  | _ => none

/-- Matcher at one position for `[_\s]Н([А-Г])`. -/
def patLetterLead (s : List Char) : Option (List Char) :=
  match s with
  | a :: 'Н' :: c :: _ =>
    if (a = '_' || isPySpace a) && isLetterAG c then some [c] else none
  | _ => none

/-- Prefix table of the line-letter map in `parse_protocol_sample_name`
(source line 183), in insertion order; each entry is matched as a substring. -/
def letterMap : List (String × String) :=
  [("НА", "А"), ("НБ", "Б"), ("НВ", "В"), ("НГ", "Г"), ("Н-Г", "Г")]

/-- Line-letter extraction of `parse_protocol_sample_name` (source lines
181–199): the substring map first, then the three regex patterns in order,
each by leftmost search. -/
def extractLetter (s : List Char) : Option String :=
  match letterMap.find? (fun pr => containsSub s pr.1.toList) with
  | some pr => some pr.2
  | none =>
    match [patLetterSep, patLetterTrail, patLetterLead].findSome?
        (fun p => reSearch p s) with
    | some cs => some (String.mk cs)
    | none => none

/-- Derived identity of one protocol label, as produced by
`parse_protocol_sample_name` (source lines 177–212). -/
structure ParsedInfo where
  original : String
  surface_type : Option String
  tube_number : Option String
  letter : Option String
deriving DecidableEq, Repr

/-- Embedding of `SampleNameMatcher.parse_protocol_sample_name`. -/
def parse_protocol_sample_name (s : String) : ParsedInfo :=
  { original := s
    surface_type := extract_surface_type s
    tube_number := extract_tube_number_from_protocol s
    letter := extractLetter s.toList }

/-- One row of the canonical naming list, as produced by
`parse_correct_names` (source lines 40–46); the rows are handed to the
matcher already parsed, the document decoding being outside the core. -/
structure CorrectSample where
  number : Int
  original : String
  surface_type : Option String
  tube_number : Option String
  letter : Option String
deriving DecidableEq, Repr

/-- Tube-number comparison of the match stages: both tube numbers truthy
(extracted tube numbers are nonempty digit strings, so truthy means present)
and equal. -/
def tubeMatch (info : ParsedInfo) (c : CorrectSample) : Bool :=
  match info.tube_number, c.tube_number with
  | some a, some b => a = b
  | _, _ => false

/-- Surface-type comparison of stage 1: both surface types present and equal. -/
def typeMatch (info : ParsedInfo) (c : CorrectSample) : Bool :=
  match info.surface_type, c.surface_type with
  | some a, some b => a = b
  | _, _ => false

/-- Inner loop of a match stage: the first canonical entry that is not used
and satisfies the stage predicate (entries failing the predicate are skipped
without breaking, as the source's `continue`/`break` structure does). -/
def findEntry (pred : ParsedInfo → CorrectSample → Bool) (info : ParsedInfo)
    (used : List String) (corrects : List CorrectSample) : Option CorrectSample :=
  corrects.find? (fun c => !(used.contains c.original) && pred info c)

/-- One match stage over the still-unmatched protocol records, threading the
`used_correct` set (source `_match_by_tube_and_type` lines 232–251 and
`_match_by_tube_only` lines 253–268, which differ only in the predicate and
the stage string).  Generic in the record type, with `name` reading the
record's `name` field. -/
def matchStage {α : Type} (name : α → String) (pred : ParsedInfo → CorrectSample → Bool)
    (stage : String) :
    List α → List CorrectSample → List String →
      List (α × CorrectSample × String) × List String
  | [], _, used => ([], used)
  | p :: ps, corrects, used =>
    match findEntry pred (parse_protocol_sample_name (name p)) used corrects with
    | some c =>
      let r := matchStage name pred stage ps corrects (c.original :: used)
      ((p, c, stage) :: r.1, r.2)
    | none => matchStage name pred stage ps corrects used

/-- Stage tag of stage 1. -/
def stageTubeType : String := "совпадение по трубе и типу"

/-- Stage tag of stage 2. -/
def stageTubeOnly : String := "совпадение по трубе"

/-- Embedding of `SampleNameMatcher.match_samples` (source lines 214–230):
stage 1 on all records, filter out the matched ones, stage 2 on the rest
with the same `used_correct` set, filter again; returns the matched triples
of both stages and the remaining unmatched records.  The source's
`s not in [...]` filters compare whole records with `==`, embedded here as
decidable equality on the record type. -/
def match_samples {α : Type} [DecidableEq α] (name : α → String)
    (protos : List α) (corrects : List CorrectSample) :
    List (α × CorrectSample × String) × List α :=
  let s1 := matchStage name (fun i c => tubeMatch i c && typeMatch i c) stageTubeType
    protos corrects []
  let un1 := protos.filter (fun s => !((s1.1.map (·.1)).contains s))
  let s2 := matchStage name tubeMatch stageTubeOnly un1 corrects s1.2
  let un2 := un1.filter (fun s => !((s2.1.map (·.1)).contains s))
  (s1.1 ++ s2.1, un2)

/-- Values stored in the sample dicts of the analyzer. -/
inductive PyVal : Type
  | vstr : String → PyVal
  | vint : Int → PyVal
  | vbool : Bool → PyVal
  | vnone : PyVal
  | vcomp : List (String × ℚ) → PyVal
deriving DecidableEq, Repr

/-- Python dict with string keys, as an insertion-ordered association list
with unique keys. -/
abbrev PyDict := List (String × PyVal)

/-- Key lookup, `d.get(k)`: `none` when the key is absent. -/
def dget (d : PyDict) (k : String) : Option PyVal :=
  (d.find? (fun kv => kv.1 = k)).map (·.2)

/-- Key assignment, `d[k] = v`: update in place keeps the key's position
(dict keys are unique, so replacing the first occurrence is dict semantics),
a new key is appended at the end. -/
def dset : PyDict → String → PyVal → PyDict
  | [], k, v => [(k, v)]
  | kv :: t, k, v => if kv.1 = k then (k, v) :: t else kv :: dset t k v

/-- Value of the `name` field of a sample dict (always a string for samples
produced by `parse_protocol_file`). -/
def dictName (d : PyDict) : String :=
  match dget d "name" with
  | some (PyVal.vstr s) => s
  | _ => ""

/-- Matched output record of `match_sample_names` (source lines 423–430):
a copy of the protocol dict with `original_name`, `name`, `correct_number`,
`automatically_matched` and `match_stage` set. -/
def matchedCopy (p : PyDict) (c : CorrectSample) (stage : String) : PyDict :=
  dset (dset (dset (dset (dset p
    "original_name" ((dget p "name").getD PyVal.vnone))
    "name" (PyVal.vstr c.original))
    "correct_number" (PyVal.vint c.number))
    "automatically_matched" (PyVal.vbool true))
    "match_stage" (PyVal.vstr stage)

/-- In-place mutation of an unmatched protocol dict performed by
`match_sample_names` (source lines 433–436): `original_name`,
`correct_number` and `automatically_matched` are assigned on the input
object itself. -/
def mutateUnmatched (s : PyDict) : PyDict :=
  dset (dset (dset s
    "original_name" ((dget s "name").getD PyVal.vnone))
    "correct_number" PyVal.vnone)
    "automatically_matched" (PyVal.vbool false)

/-- Embedding of `ChemicalAnalyzer.match_sample_names` (source lines
410–473) with explicit heap state: the first component is the returned
`all_samples` list, the second is the post-call state of the caller's input
dicts (an input dict is mutated exactly when its value is not among the
matched records, mirroring the object-level mutation of the unmatched loop).
The document decoding and UI display are elided; the canonical rows are
passed already parsed, and an empty canonical list takes the early-return
path that touches nothing. -/
def match_sample_names (samples : List PyDict) (corrects : List CorrectSample) :
    List PyDict × List PyDict :=
  if corrects.isEmpty then (samples, samples)
  else
    let r := match_samples dictName samples corrects
    let matchedFst := r.1.map (·.1)
    (r.1.map (fun m => matchedCopy m.1 m.2.1 m.2.2) ++ r.2.map mutateUnmatched,
     samples.map (fun s => if matchedFst.contains s then s else mutateUnmatched s))

/-- Manual-override mapping: insertion-ordered pairs of a record's
`original_name` and its selected canonical name (`none` once unassigned),
as held in `st.session_state.manual_matches`. -/
abbrev ManualMap := List (String × Option String)

/-- Assignment on a `ManualMap` with dict semantics (keys unique, replace
the first occurrence in place, append when new). -/
def msets : ManualMap → String → Option String → ManualMap
  | [], k, v => [(k, v)]
  | kv :: t, k, v => if kv.1 = k then (k, v) :: t else kv :: msets t k v

/-- Conflict scan of `add_manual_matching_interface` (source lines 575–583):
walk the mapping in insertion order; the first record naming a canonical
entry claims it in `used_names`, every later record naming the same entry
produces a conflict triple `(laterRecord, name, firstRecord)`.  A selected
name is only considered when truthy (non-`None`, nonempty). -/
def conflictScan (mm : ManualMap) : List (String × String) × List (String × String × String) :=
  mm.foldl
    (fun acc kv =>
      match kv.2 with
      | some cn =>
        if cn = "" then acc
        else
          match acc.1.find? (fun pr => pr.1 = cn) with
          | some pr => (acc.1, acc.2 ++ [(kv.1, cn, pr.2)])
          | none => (acc.1 ++ [(cn, kv.1)], acc.2)
      | none => acc)
    ([], [])

/-- Conflict resolution of `add_manual_matching_interface` (source lines
585–589): for every conflict triple, the mapping of the record recorded in
`used_names` (the first-inserted one) is set to `None`. -/
def resolveManual (mm : ManualMap) : ManualMap :=
  (conflictScan mm).2.foldl (fun m tr => msets m tr.2.2 none) mm

/-- Lookup in the `correct_dict` comprehension (source line 491): Python's
dict comprehension keeps the last row for a duplicated name, so the lookup
takes the last matching canonical row. -/
def correctDictGet (corrects : List CorrectSample) (cn : String) : Option CorrectSample :=
  corrects.foldl (fun acc c => if c.original = cn then some c else acc) none

/-- Value of the `original_name` field of a sample dict. -/
def dictOriginalName (d : PyDict) : String :=
  match dget d "original_name" with
  | some (PyVal.vstr s) => s
  | _ => ""

/-- Update of one sample by the apply-manual-matching loop (source lines
592–615): a record present in the resolved mapping becomes matched when its
name is truthy and known, reverts to unmatched otherwise; a record absent
from the mapping only gains `manually_matched = False`. -/
def applyManualToSample (mm : ManualMap) (corrects : List CorrectSample)
    (sample : PyDict) : PyDict :=
  match (mm.find? (fun kv => kv.1 = dictOriginalName sample)).map (·.2) with
  | some (some cn) =>
    if cn ≠ "" then
      match correctDictGet corrects cn with
      | some c =>
        dset (dset (dset (dset (dset sample
          "name" (PyVal.vstr cn))
          "correct_number" (PyVal.vint c.number))
          "manually_matched" (PyVal.vbool true))
          "automatically_matched" (PyVal.vbool false))
          "match_stage" (PyVal.vstr "ручное сопоставление")
      | none =>
        dset (dset (dset (dset sample
          "name" (PyVal.vstr (dictOriginalName sample)))
          "correct_number" PyVal.vnone)
          "manually_matched" (PyVal.vbool false))
          "automatically_matched" (PyVal.vbool false)
    else
      dset (dset (dset (dset sample
        "name" (PyVal.vstr (dictOriginalName sample)))
        "correct_number" PyVal.vnone)
        "manually_matched" (PyVal.vbool false))
        "automatically_matched" (PyVal.vbool false)
  | some none =>
    dset (dset (dset (dset sample
      "name" (PyVal.vstr (dictOriginalName sample)))
      "correct_number" PyVal.vnone)
      "manually_matched" (PyVal.vbool false))
      "automatically_matched" (PyVal.vbool false)
  | none => dset sample "manually_matched" (PyVal.vbool false)

/-- Core of the apply branch of
`ChemicalAnalyzer.add_manual_matching_interface` (source lines 568–620):
resolve conflicts in the manual mapping, then update every sample from the
resolved mapping.  The surrounding UI (widgets, warnings, the summary
expander) is elided. -/
def applyManualMatching (samples : List PyDict) (mm : ManualMap)
    (corrects : List CorrectSample) : List PyDict :=
  let resolved := resolveManual mm
  samples.map (applyManualToSample resolved corrects)

/-- Model of Python's `float` on stripped decimal literals: optional sign,
integer and/or fractional digits, optional exponent; `none` when conversion
raises `ValueError`.  The special forms `inf`/`nan` and digit underscores
never occur in protocol tables and are not modelled. -/
def pyFloat? (raw : List Char) : Option ℚ :=
  let t := ((raw.dropWhile isPySpace).reverse.dropWhile isPySpace).reverse
  let sp : Int × List Char :=
    match t with
    | '+' :: r => (1, r)
    | '-' :: r => (-1, r)
    | _ => (1, t)
  let ip := digitsSplit sp.2
  let fpp : List Char × List Char :=
    match ip.2 with
    | '.' :: r => ((digitsSplit r).1, (digitsSplit r).2)
    | _ => ([], ip.2)
  if ip.1.isEmpty && fpp.1.isEmpty then none
  else
    let mant : Int := sp.1 * (digitsToNat (ip.1 ++ fpp.1) : Int)
    match fpp.2 with
    | [] => some (mkRat mant (10 ^ fpp.1.length))
    | e :: r3 =>
      if e = 'e' || e = 'E' then
        let esp : Int × List Char :=
          match r3 with
          | '+' :: r => (1, r)
          | '-' :: r => (-1, r)
          | _ => (1, r3)
        let ed := digitsSplit esp.2
        if ed.1.isEmpty || !ed.2.isEmpty then none
        else if esp.1 = 1 then some (mkRat (mant * 10 ^ digitsToNat ed.1) (10 ^ fpp.1.length))
        else some (mkRat mant (10 ^ (fpp.1.length + digitsToNat ed.1)))
      else none

/-- Cell normalization and conversion of `parse_composition_table` (source
lines 384–388): decimal comma to point, internal spaces stripped, the part
before `±` kept, then `float`. -/
def parseCell (s : String) : Option ℚ :=
  pyFloat? ((pyReplace (pyReplace s.toList [','] ['.']) [' '] []).takeWhile (fun c => c ≠ '±'))

/-- Element symbols accepted by the analyzer (`self.all_elements`, source
lines 275–276). -/
def all_elements : List String :=
  ["C", "Si", "Mn", "P", "S", "Cr", "Mo", "Ni",
   "Cu", "Al", "Co", "Nb", "Ti", "V", "W", "Fe"]

/-- Lookup in a composition mapping. -/
def compGet (m : List (String × ℚ)) (k : String) : Option ℚ :=
  (m.find? (fun kv => kv.1 = k)).map (·.2)

/-- Assignment in a composition mapping, with dict semantics (keys unique,
replace the first occurrence in place, append when new). -/
def compSet : List (String × ℚ) → String → ℚ → List (String × ℚ)
  | [], k, v => [(k, v)]
  | kv :: t, k, v => if kv.1 = k then (k, v) :: t else kv :: compSet t k v

/-- Processing of one header/value cell pair of `parse_composition_table`
(source lines 381–391): a recognized element whose value converts is stored;
a failed conversion is skipped (`continue`). -/
def processPair (comp : List (String × ℚ)) (hv : String × String) : List (String × ℚ) :=
  if all_elements.contains hv.1 then
    match parseCell hv.2 with
    | some v => compSet comp hv.1 v
    | none => comp
  else comp

/-- Processing of one header row against its value row: `enumerate` over the
headers with the bound check `i < len(values)` is the fold over their zip. -/
def processRow (headers values : List String) (comp : List (String × ℚ)) :
    List (String × ℚ) :=
  (headers.zip values).foldl processPair comp

/-- Embedding of `ChemicalAnalyzer.parse_composition_table` (source lines
362–408): tables of fewer than 13 rows yield an empty composition; otherwise
the header rows 0 and 7 are read against the value rows 5 and 12. -/
def parse_composition_table (rows : List (List String)) : List (String × ℚ) :=
  if rows.length < 13 then []
  else
    processRow (rows.getD 7 []) (rows.getD 12 [])
      (processRow (rows.getD 0 []) (rows.getD 5 []) [])

/-- Embedding of `ChemicalAnalyzer.check_element_compliance` (source lines
658–670).  A grade standard is the list of its element entries, each with
optional min and max bounds; the dict's extra `source` key maps to a string
and is covered by the explicit `element == "source"` guard of the source. -/
def check_element_compliance (element : String) (value : ℚ)
    (standard : List (String × Option ℚ × Option ℚ)) : String :=
  if element = "source" then "normal"
  else
    match standard.find? (fun e => e.1 = element) with
    | none => "normal"
    | some ent =>
      if (match ent.2.1 with | some m => decide (value < m) | none => false) then "deviation"
      else if (match ent.2.2 with | some m => decide (m < value) | none => false) then "deviation"
      else "normal"

/-- Built-in standard for grade 12Х1МФ (source lines 280–285), with the
float literals as exact rationals. -/
def std12X1MF : List (String × Option ℚ × Option ℚ) :=
  [("C", some (mkRat 10 100), some (mkRat 15 100)),
   ("Si", some (mkRat 17 100), some (mkRat 37 100)),
   ("Mn", some (mkRat 40 100), some (mkRat 70 100)),
   ("Cr", some (mkRat 90 100), some (mkRat 120 100)),
   ("Mo", some (mkRat 25 100), some (mkRat 35 100)),
   ("V", some (mkRat 15 100), some (mkRat 30 100)),
   ("Ni", none, some (mkRat 25 100)),
   ("Cu", none, some (mkRat 20 100)),
   ("S", none, some (mkRat 25 1000)),
   ("P", none, some (mkRat 25 1000))]

/-- Python's `round` on an exact rational: nearest integer, ties to the even
integer (banker's rounding), computed from the numerator and denominator so
that it evaluates in the kernel. -/
def pyRound (q : ℚ) : ℤ :=
  let f : ℤ := Int.fdiv q.num q.den
  let r : ℤ := q.num - f * (q.den : ℤ)
  if 2 * r < (q.den : ℤ) then f
  else if (q.den : ℤ) < 2 * r then f + 1
  else if f % 2 = 0 then f else f + 1

/-- Modelled from the spec: segment walk of the yield-strength threshold
interpolation (§4.4), over ordered breakpoints at or below the query
temperature's side: an exact or lower breakpoint returns its value, a
temperature strictly between two breakpoints interpolates linearly and
rounds, a temperature at or above the last breakpoint clamps to it. -/
def interpSegments (temp : ℚ) : List (ℚ × ℚ) → ℤ
  | [] => 0
  | [bp] => pyRound bp.2
  | bp1 :: bp2 :: rest =>
    if temp ≤ bp1.1 then pyRound bp1.2
    else if temp < bp2.1 then
      pyRound (bp1.2 + (bp2.2 - bp1.2) * (temp - bp1.1) / (bp2.1 - bp1.1))
    else interpSegments temp (bp2 :: rest)

/-- Modelled from the spec: the yield-strength threshold interpolation
operation of ComplianceEvaluator (§4.4), which is absent from `src/` (the
repository holds only the chemical-composition variant of the corpus).
`rtMin` is the room-temperature yield minimum anchored at 20°C: a
temperature below the lowest breakpoint interpolates from that anchor, a
temperature at or below 20°C returns the anchor value itself (the spec's
round-trip example gives 216 at 10°C), and a lowest breakpoint already at or
below 20°C returns its own value. -/
def interpolateYield (rtMin : ℚ) (bps : List (ℚ × ℚ)) (temp : ℚ) : ℤ :=
  match bps with
  | [] => pyRound rtMin
  | bp0 :: _ =>
    if temp < bp0.1 then
      if bp0.1 ≤ 20 then pyRound bp0.2
      else if temp ≤ 20 then pyRound rtMin
      else pyRound (rtMin + (bp0.2 - rtMin) * (temp - 20) / (bp0.1 - 20))
    else interpSegments temp bps

/-- C5: `check_element_compliance` returns `normal` when the value equals the
min or max bound exactly, `deviation` when strictly below a present min or
strictly above a present max, and `normal` for an element absent from the
grade's standard (including the `source` key) or whose bound on the violated
side is absent, so an absent bound never causes a deviation. -/
theorem c5_compliance_boundary (el : String) (v : ℚ)
    (std : List (String × Option ℚ × Option ℚ)) :
    (std.find? (fun e => e.1 = el) = none →
      check_element_compliance el v std = "normal")
    ∧ (el = "source" → check_element_compliance el v std = "normal")
    ∧ (∀ ent, std.find? (fun e => e.1 = el) = some ent → el ≠ "source" →
        ((∀ m, ent.2.1 = some m → v < m →
            check_element_compliance el v std = "deviation")
         ∧ (∀ M, ent.2.2 = some M → M < v →
            check_element_compliance el v std = "deviation")
         ∧ (∀ m, ent.2.1 = some m → v = m →
            (∀ M, ent.2.2 = some M → m ≤ M) →
            check_element_compliance el v std = "normal")
         ∧ (∀ M, ent.2.2 = some M → v = M →
            (∀ m, ent.2.1 = some m → m ≤ M) →
            check_element_compliance el v std = "normal")
         ∧ (ent.2.1 = none → (∀ M, ent.2.2 = some M → v ≤ M) →
            check_element_compliance el v std = "normal")
         ∧ (ent.2.2 = none → (∀ m, ent.2.1 = some m → m ≤ v) →
            check_element_compliance el v std = "normal"))) := by
  refine ⟨?_, ?_, ?_⟩
  · intro h
    by_cases hs : el = "source"
    · simp [check_element_compliance, hs]
    · simp [check_element_compliance, hs, h]
  · intro h
    simp [check_element_compliance, h]
  · intro ent hent hs
    refine ⟨?_, ?_, ?_, ?_, ?_, ?_⟩
    · intro m hm hv
      simp [check_element_compliance, hs, hent, hm, hv]
    · intro M hM hv
      rcases hmn : ent.2.1 with _ | m
      · simp [check_element_compliance, hs, hent, hmn, hM, hv]
      · by_cases hlt : v < m
        · simp [check_element_compliance, hs, hent, hmn, hlt]
        · simp [check_element_compliance, hs, hent, hmn, hlt, hM, hv]
    · intro m hm hv hmM
      have h1 : ¬v < m := by rw [hv]; exact lt_irrefl m
      rcases hmx : ent.2.2 with _ | M
      · simp [check_element_compliance, hs, hent, hm, hmx, h1]
      · have h2 : ¬M < v := by
          rw [hv]; exact not_lt.mpr (hmM M hmx)
        simp [check_element_compliance, hs, hent, hm, hmx, h1, h2]
    · intro M hM hv hmM
      have h2 : ¬M < v := by rw [hv]; exact lt_irrefl M
      rcases hmn : ent.2.1 with _ | m
      · simp [check_element_compliance, hs, hent, hmn, hM, h2]
      · have h1 : ¬v < m := by
          rw [hv]; exact not_lt.mpr (hmM m hmn)
        simp [check_element_compliance, hs, hent, hmn, hM, h1, h2]
    · intro hmn hle
      rcases hmx : ent.2.2 with _ | M
      · simp [check_element_compliance, hs, hent, hmn, hmx]
      · have h2 : ¬M < v := not_lt.mpr (hle M hmx)
        simp [check_element_compliance, hs, hent, hmn, hmx, h2]
    · intro hmx hle
      rcases hmn : ent.2.1 with _ | m
      · simp [check_element_compliance, hs, hent, hmn, hmx]
      · have h1 : ¬v < m := not_lt.mpr (hle m hmn)
        simp [check_element_compliance, hs, hent, hmn, hmx, h1]

/-- Witness for C5 on the built-in 12Х1МФ standard: carbon exactly at its
lower bound 0.10 is `normal`, and a value strictly below it is `deviation`. -/
theorem c5_compliance_boundary_witness :
    check_element_compliance "C" (mkRat 10 100) std12X1MF = "normal"
    ∧ check_element_compliance "C" (mkRat 9 100) std12X1MF = "deviation" := by
  constructor
  · exact ((c5_compliance_boundary "C" (mkRat 10 100) std12X1MF).2.2
      (("C" : String), some (mkRat 10 100), some (mkRat 15 100)) (by decide)
      (by decide)).2.2.1 (mkRat 10 100) rfl rfl (by decide)
  · exact ((c5_compliance_boundary "C" (mkRat 9 100) std12X1MF).2.2
      (("C" : String), some (mkRat 10 100), some (mkRat 15 100)) (by decide)
      (by decide)).1 (mkRat 10 100) rfl (by decide)

/-- Round of an integer-valued rational is that integer. -/
theorem pyRound_intCast (n : ℤ) : pyRound (n : ℚ) = n := by
  simp [pyRound, Rat.num_intCast, Rat.den_intCast, Int.fdiv_one]

/-- Breakpoint list of the spec's interpolation round-trip example (§8). -/
def specYieldBreakpoints : List (ℚ × ℚ) := [(250, 196), (400, 137), (450, 127)]

/-- C6: the yield-strength threshold interpolation (modelled from the spec,
§4.4) satisfies the spec's round-trip example with room-temperature anchor
216: an exact breakpoint returns its value (250 ↦ 196), a temperature
between breakpoints interpolates linearly with round-half-to-even
(325 ↦ 166), a temperature above the highest breakpoint clamps to it
(500 ↦ 127, and every temperature ≥ 450 gives 127), and a temperature below
20°C returns the room-temperature anchor (10 ↦ 216, and every temperature
≤ 20 gives 216). -/
theorem c6_yield_interpolation :
    interpolateYield 216 specYieldBreakpoints 250 = 196
    ∧ interpolateYield 216 specYieldBreakpoints 325 = 166
    ∧ interpolateYield 216 specYieldBreakpoints 500 = 127
    ∧ interpolateYield 216 specYieldBreakpoints 10 = 216
    ∧ (∀ t : ℚ, 450 ≤ t → interpolateYield 216 specYieldBreakpoints t = 127)
    ∧ (∀ t : ℚ, t ≤ 20 → interpolateYield 216 specYieldBreakpoints t = 216) := by
  have h127 : pyRound ((127 : ℚ)) = 127 := by
    rw [show (127 : ℚ) = ((127 : ℤ) : ℚ) by norm_num, pyRound_intCast]
  have h196 : pyRound ((196 : ℚ)) = 196 := by
    rw [show (196 : ℚ) = ((196 : ℤ) : ℚ) by norm_num, pyRound_intCast]
  have h216 : pyRound ((216 : ℚ)) = 216 := by
    rw [show (216 : ℚ) = ((216 : ℤ) : ℚ) by norm_num, pyRound_intCast]
  refine ⟨?_, ?_, ?_, ?_, ?_, ?_⟩
  · simp only [interpolateYield, interpSegments, specYieldBreakpoints]
    norm_num [h196]
  · have e1 : interpolateYield 216 specYieldBreakpoints 325
        = pyRound ((196 : ℚ) + (137 - 196) * ((325 : ℚ) - 250) / (400 - 250)) := by
      simp only [interpolateYield, interpSegments, specYieldBreakpoints]
      norm_num
    have e2 : (196 : ℚ) + (137 - 196) * ((325 : ℚ) - 250) / (400 - 250) = mkRat 333 2 := by
      rw [Rat.mkRat_eq_div]; norm_num
    rw [e1, e2]; decide
  · simp only [interpolateYield, interpSegments, specYieldBreakpoints]
    norm_num [h127]
  · simp only [interpolateYield, interpSegments, specYieldBreakpoints]
    norm_num [h216]
  · intro t ht
    have h1 : ¬t < (250 : ℚ) := by intro h; linarith
    have h2 : ¬t ≤ (250 : ℚ) := by intro h; linarith
    have h3 : ¬t < (400 : ℚ) := by intro h; linarith
    have h4 : ¬t ≤ (400 : ℚ) := by intro h; linarith
    have h5 : ¬t < (450 : ℚ) := by intro h; linarith
    simp only [interpolateYield, interpSegments, specYieldBreakpoints]
    rw [if_neg h1, if_neg h2, if_neg h3, if_neg h4, if_neg h5, h127]
  · intro t ht
    have h1 : t < (250 : ℚ) := by linarith
    have h2 : ¬(250 : ℚ) ≤ 20 := by norm_num
    simp only [interpolateYield, specYieldBreakpoints]
    rw [if_pos h1, if_neg h2, if_pos ht, h216]

/-- Witness for C6: the clamping clauses applied at 460°C and 15°C. -/
theorem c6_yield_interpolation_witness :
    interpolateYield 216 specYieldBreakpoints 460 = 127
    ∧ interpolateYield 216 specYieldBreakpoints 15 = 216 :=
  ⟨c6_yield_interpolation.2.2.2.2.1 460 (by norm_num),
   c6_yield_interpolation.2.2.2.2.2 15 (by norm_num)⟩

/-- Assignment to one key leaves the lookup of a different key unchanged. -/
theorem compGet_compSet_ne (m : List (String × ℚ)) (k k' : String) (v : ℚ)
    (h : k ≠ k') : compGet (compSet m k v) k' = compGet m k' := by
  induction m with
  | nil => simp [compSet, compGet, List.find?, h]
  | cons kv t ih =>
    by_cases hk : kv.1 = k
    · have h2 : ¬kv.1 = k' := by rw [hk]; exact h
      simp [compSet, hk, compGet, List.find?, h, h2]
    · by_cases hk' : kv.1 = k'
      · simp [compSet, hk, compGet, List.find?, hk', Ne.symm h]
      · simpa [compSet, hk, compGet, List.find?, hk'] using ih

/-- Cells of an element whose values all fail conversion leave that element's
entry unchanged across a row pass. -/
theorem foldl_processPair_skip (l : List (String × String))
    (comp : List (String × ℚ)) (el : String)
    (h : ∀ hv ∈ l, hv.1 = el → parseCell hv.2 = none) :
    compGet (l.foldl processPair comp) el = compGet comp el := by
  induction l generalizing comp with
  | nil => rfl
  | cons hv t ih =>
    rw [List.foldl_cons, ih (processPair comp hv)
      (fun x hx hxel => h x (List.mem_cons_of_mem _ hx) hxel)]
    unfold processPair
    by_cases hel : hv.1 = el
    · rw [h hv (List.mem_cons_self _ _) hel]
      simp
    · split
      · cases hp : parseCell hv.2 with
        | none => rfl
        | some vv => exact compGet_compSet_ne _ _ _ _ hel
      · rfl

/-- Composition table used to refute C4: a recognized element header (`C`)
whose value cell does not convert. -/
def c4Table : List (List String) :=
  [["C", "Si"], [], [], [], [], ["abc", "0,25"], [], [], [], [], [], [], []]

/-- Counterexample to C4: in the embedded `parse_composition_table`, a cell
of the known element `C` whose value string fails numeric conversion leaves
`C` absent from the composition mapping; it is not mapped to zero as the
claim states (the source's `except ... continue` skips the element). -/
theorem c4_counterexample :
    compGet (parse_composition_table c4Table) "C" = none
    ∧ ¬compGet (parse_composition_table c4Table) "C" = some (mkRat 0 1)
    ∧ compGet (parse_composition_table c4Table) "Si" = some (mkRat 1 4) := by
  refine ⟨by decide, by decide, by decide⟩

/-- C4 as amended: a value cell that fails numeric conversion (after the
space stripping, comma conversion and `±` truncation) leaves the element's
entry in the composition mapping unchanged — in particular an element all of
whose cells fail is absent from the result, not zero — and no error is
raised (the function is total). -/
theorem c4_amended (rows : List (List String)) (el : String)
    (h05 : ∀ hv ∈ (rows.getD 0 []).zip (rows.getD 5 []), hv.1 = el → parseCell hv.2 = none)
    (h712 : ∀ hv ∈ (rows.getD 7 []).zip (rows.getD 12 []), hv.1 = el → parseCell hv.2 = none) :
    compGet (parse_composition_table rows) el = none := by
  unfold parse_composition_table
  split
  · rfl
  · unfold processRow
    rw [foldl_processPair_skip _ _ _ h712, foldl_processPair_skip _ _ _ h05]
    rfl

/-- Witness for C4 as amended, at the concrete table: every `C` cell fails to
convert, and `C` is absent from the parsed composition. -/
theorem c4_amended_witness : compGet (parse_composition_table c4Table) "C" = none :=
  c4_amended c4Table "C" (by decide) (by decide)

/-- Sample dict with only the fields the manual-matching loop reads. -/
def c3Sample (n : String) : PyDict :=
  [("name", PyVal.vstr n), ("original_name", PyVal.vstr n)]

/-- Canonical list with the single entry `X`, number 7. -/
def c3Corrects : List CorrectSample :=
  [{ number := 7, original := "X", surface_type := none,
     tube_number := none, letter := none }]

/-- Manual mapping sending three records to the same canonical name, in
insertion order R1, R2, R3. -/
def c3Manual3 : ManualMap :=
  [("R1", some "X"), ("R2", some "X"), ("R3", some "X")]

/-- Manual mapping sending two records to the same canonical name. -/
def c3Manual2 : ManualMap :=
  [("R1", some "X"), ("R2", some "X")]

/-- Counterexample to C3: with three records manually mapped to the same
canonical name `X`, applying the overrides leaves TWO records (R2 and R3)
mapped to `X`, not exactly one — the conflict pass only reverts the
first-inserted record, because every conflict triple names the first
claimant as the loser. -/
theorem c3_counterexample :
    ((applyManualMatching [c3Sample "R1", c3Sample "R2", c3Sample "R3"]
        c3Manual3 c3Corrects).filter
      (fun d => dget d "name" == some (PyVal.vstr "X"))).length = 2 := by decide

/-- Conflict-resolution behavior of the apply-manual-matching code at two
and three conflicting records: only the first-inserted record reverts to
unmatched; with exactly two records the last-inserted one therefore wins,
but with three records both the second and the third keep the name. -/
theorem c3_conflict_behavior :
    (dget ((applyManualMatching [c3Sample "R1", c3Sample "R2"]
        c3Manual2 c3Corrects).getD 0 []) "name" = some (PyVal.vstr "R1")
     ∧ dget ((applyManualMatching [c3Sample "R1", c3Sample "R2"]
        c3Manual2 c3Corrects).getD 0 []) "correct_number" = some PyVal.vnone
     ∧ dget ((applyManualMatching [c3Sample "R1", c3Sample "R2"]
        c3Manual2 c3Corrects).getD 1 []) "name" = some (PyVal.vstr "X")
     ∧ dget ((applyManualMatching [c3Sample "R1", c3Sample "R2"]
        c3Manual2 c3Corrects).getD 1 []) "correct_number" = some (PyVal.vint 7))
    ∧ (dget ((applyManualMatching [c3Sample "R1", c3Sample "R2", c3Sample "R3"]
        c3Manual3 c3Corrects).getD 0 []) "name" = some (PyVal.vstr "R1")
       ∧ dget ((applyManualMatching [c3Sample "R1", c3Sample "R2", c3Sample "R3"]
        c3Manual3 c3Corrects).getD 1 []) "name" = some (PyVal.vstr "X")
       ∧ dget ((applyManualMatching [c3Sample "R1", c3Sample "R2", c3Sample "R3"]
        c3Manual3 c3Corrects).getD 2 []) "name" = some (PyVal.vstr "X")) := by
  refine ⟨⟨by decide, by decide, by decide, by decide⟩, by decide, by decide, by decide⟩

/-- Counterexample to C10's instance: on the claim's example string
`12 труба 5` the two extractors do NOT differ — the protocol side hits its
explicit pattern `труба\s*(\d+)` and returns `5`, and the canonical side's
last-bare-integer fallback also returns `5`. -/
theorem c10_counterexample :
    extract_tube_number_from_correct "12 труба 5" = some "5"
    ∧ extract_tube_number_from_protocol "12 труба 5" = some "5" :=
  ⟨by decide, by decide⟩

/-- C10 as amended: the canonical-side extractor indeed falls back to the
LAST bare integer once the parenthesized-digits and digits-before-`)`
patterns fail, and the two extractors diverge on text containing several
bare integers that avoids the protocol side's explicit patterns: on `12 5`
the canonical side returns the last integer `5` while the protocol side
returns the maximum `12`. -/
theorem c10_amended (s : String)
    (h1 : reSearch patParen s.toList = none)
    (h2 : reSearch patWsNumParen s.toList = none) :
    (∀ n ns, bareTokens s.toList = n :: ns →
      extract_tube_number_from_correct s = some (String.mk (lastTok n ns)))
    ∧ (bareTokens s.toList = [] → extract_tube_number_from_correct s = none)
    ∧ extract_tube_number_from_correct "12 5" = some "5"
    ∧ extract_tube_number_from_protocol "12 5" = some "12" := by
  refine ⟨?_, ?_, by decide, by decide⟩
  · intro n ns htok
    unfold extract_tube_number_from_correct
    rw [h1, h2, htok]
  · intro htok
    unfold extract_tube_number_from_correct
    rw [h1, h2, htok]

/-- Witness for C10 as amended, at the string `12 5`. -/
theorem c10_amended_witness :
    extract_tube_number_from_correct "12 5" = some "5" := by
  rw [(c10_amended "12 5" (by decide) (by decide)).1 ['1', '2'] [['5']] (by decide)]
  decide

/-- Result of the `j`-th explicit protocol pattern on a label (`none` beyond
the pattern list). -/
def patAt (j : Nat) (s : String) : Option (List Char) :=
  (protocolPatterns.getD j (fun _ => none)) s.toList

/-- C8: protocol-side tube-number extraction tries the explicit patterns in
their fixed order and returns the first that matches anywhere in the label;
only when all five fail does it return the maximum-valued bare integer, and
it returns `None` exactly when additionally the label holds no bare integer. -/
theorem c8_pattern_precedence (s : String) :
    (∀ i, i < 5 → ∀ d, patAt i s = some d → (∀ j, j < i → patAt j s = none) →
      extract_tube_number_from_protocol s = some (String.mk d))
    ∧ ((∀ j, j < 5 → patAt j s = none) →
        ∀ n ns, bareTokens s.toList = n :: ns →
          extract_tube_number_from_protocol s = some (String.mk (maxTok n ns)))
    ∧ (extract_tube_number_from_protocol s = none ↔
        (∀ j, j < 5 → patAt j s = none) ∧ bareTokens s.toList = []) := by
  refine ⟨?_, ?_, ?_, ?_⟩
  · intro i hi d hd hprev
    interval_cases i
    · have h0 : reSearch patTrDotNum s.data = some d := by
        simpa [patAt, protocolPatterns, String.toList] using hd
      simp [extract_tube_number_from_protocol, protocolPatterns, String.toList,
        List.findSome?_cons, h0]
    · have h0 : reSearch patTrDotNum s.data = none := by
        simpa [patAt, protocolPatterns, String.toList] using hprev 0 (by omega)
      have h1 : reSearch patTrNum s.data = some d := by
        simpa [patAt, protocolPatterns, String.toList] using hd
      simp [extract_tube_number_from_protocol, protocolPatterns, String.toList,
        List.findSome?_cons, h0, h1]
    · have h0 : reSearch patTrDotNum s.data = none := by
        simpa [patAt, protocolPatterns, String.toList] using hprev 0 (by omega)
      have h1 : reSearch patTrNum s.data = none := by
        simpa [patAt, protocolPatterns, String.toList] using hprev 1 (by omega)
      have h2 : reSearch patTrubaNum s.data = some d := by
        simpa [patAt, protocolPatterns, String.toList] using hd
      simp [extract_tube_number_from_protocol, protocolPatterns, String.toList,
        List.findSome?_cons, h0, h1, h2]
    · have h0 : reSearch patTrDotNum s.data = none := by
        simpa [patAt, protocolPatterns, String.toList] using hprev 0 (by omega)
      have h1 : reSearch patTrNum s.data = none := by
        simpa [patAt, protocolPatterns, String.toList] using hprev 1 (by omega)
      have h2 : reSearch patTrubaNum s.data = none := by
        simpa [patAt, protocolPatterns, String.toList] using hprev 2 (by omega)
      have h3 : reSearch patTrDotPlain s.data = some d := by
        simpa [patAt, protocolPatterns, String.toList] using hd
      simp [extract_tube_number_from_protocol, protocolPatterns, String.toList,
        List.findSome?_cons, h0, h1, h2, h3]
    · have h0 : reSearch patTrDotNum s.data = none := by
        simpa [patAt, protocolPatterns, String.toList] using hprev 0 (by omega)
      have h1 : reSearch patTrNum s.data = none := by
        simpa [patAt, protocolPatterns, String.toList] using hprev 1 (by omega)
      have h2 : reSearch patTrubaNum s.data = none := by
        simpa [patAt, protocolPatterns, String.toList] using hprev 2 (by omega)
      have h3 : reSearch patTrDotPlain s.data = none := by
        simpa [patAt, protocolPatterns, String.toList] using hprev 3 (by omega)
      have h4 : reSearch patParen s.data = some d := by
        simpa [patAt, protocolPatterns, String.toList] using hd
      simp [extract_tube_number_from_protocol, protocolPatterns, String.toList,
        List.findSome?_cons, h0, h1, h2, h3, h4]
  · intro hall n ns htok
    have h0 : reSearch patTrDotNum s.data = none := by
      simpa [patAt, protocolPatterns, String.toList] using hall 0 (by omega)
    have h1 : reSearch patTrNum s.data = none := by
      simpa [patAt, protocolPatterns, String.toList] using hall 1 (by omega)
    have h2 : reSearch patTrubaNum s.data = none := by
      simpa [patAt, protocolPatterns, String.toList] using hall 2 (by omega)
    have h3 : reSearch patTrDotPlain s.data = none := by
      simpa [patAt, protocolPatterns, String.toList] using hall 3 (by omega)
    have h4 : reSearch patParen s.data = none := by
      simpa [patAt, protocolPatterns, String.toList] using hall 4 (by omega)
    have htok2 : bareTokens s.data = n :: ns := htok
    simp [extract_tube_number_from_protocol, protocolPatterns, String.toList,
      List.findSome?_cons, h0, h1, h2, h3, h4, htok2]
  · intro he
    cases hf : protocolPatterns.findSome? (fun p => p s.data) with
    | some d => simp [extract_tube_number_from_protocol, String.toList, hf] at he
    | none =>
      cases htok : bareTokens s.data with
      | cons n ns => simp [extract_tube_number_from_protocol, String.toList, hf, htok] at he
      | nil =>
        refine ⟨?_, htok⟩
        intro j hj
        have hmem := List.findSome?_eq_none_iff.mp hf
        interval_cases j
        · simpa [patAt, protocolPatterns, String.toList] using
            hmem (reSearch patTrDotNum) (by simp [protocolPatterns])
        · simpa [patAt, protocolPatterns, String.toList] using
            hmem (reSearch patTrNum) (by simp [protocolPatterns])
        · simpa [patAt, protocolPatterns, String.toList] using
            hmem (reSearch patTrubaNum) (by simp [protocolPatterns])
        · simpa [patAt, protocolPatterns, String.toList] using
            hmem (reSearch patTrDotPlain) (by simp [protocolPatterns])
        · simpa [patAt, protocolPatterns, String.toList] using
            hmem (reSearch patParen) (by simp [protocolPatterns])
  · intro h
    have h0 : reSearch patTrDotNum s.data = none := by
      simpa [patAt, protocolPatterns, String.toList] using h.1 0 (by omega)
    have h1 : reSearch patTrNum s.data = none := by
      simpa [patAt, protocolPatterns, String.toList] using h.1 1 (by omega)
    have h2 : reSearch patTrubaNum s.data = none := by
      simpa [patAt, protocolPatterns, String.toList] using h.1 2 (by omega)
    have h3 : reSearch patTrDotPlain s.data = none := by
      simpa [patAt, protocolPatterns, String.toList] using h.1 3 (by omega)
    have h4 : reSearch patParen s.data = none := by
      simpa [patAt, protocolPatterns, String.toList] using h.1 4 (by omega)
    have htok2 : bareTokens s.data = [] := h.2
    simp [extract_tube_number_from_protocol, protocolPatterns, String.toList,
      List.findSome?_cons, h0, h1, h2, h3, h4, htok2]

/-- Witness for C8: `труба 26` is matched by the third explicit pattern while
the first two fail, so extraction returns `26`. -/
theorem c8_pattern_precedence_witness :
    extract_tube_number_from_protocol "труба 26" = some (String.mk ['2', '6']) :=
  (c8_pattern_precedence "труба 26").1 2 (by omega) ['2', '6'] (by decide) (by decide)

/-- Surface-type dictionary flattened to (type, alias) pairs in iteration
order, following the spec's description of the fallback as a scan over
dictionary entries. -/
def aliasPairs : List (String × String) :=
  (surfaceTypes.map (fun pr => pr.2.map (fun p => (pr.1, p)))).flatten

/-- Surface type of the first alias above the similarity threshold, in
dictionary iteration order. -/
def firstAliasAbove (name : String) : Option String :=
  (aliasPairs.find? (fun pr =>
    simAbove (normalize_roman_numerals pr.2.toList)
      (normalize_roman_numerals name.toList))).map (·.1)

/-- Similarity pass of `extract_surface_type` as a single scan over the
flattened alias pairs. -/
theorem findSimilar_eq_flat (nn : List Char) (l : List (String × List String)) :
    findSimilarMatch nn l
      = ((l.map (fun pr => pr.2.map (fun p => (pr.1, p)))).flatten.find?
          (fun pr => simAbove (normalize_roman_numerals pr.2.toList) nn)).map (·.1) := by
  induction l with
  | nil => rfl
  | cons hd tl ih =>
    obtain ⟨st, pats⟩ := hd
    simp only [findSimilarMatch, List.map_cons, List.flatten_cons, List.find?_append,
      List.find?_map]
    by_cases hany : pats.any (fun p => simAbove (normalize_roman_numerals p.toList) nn)
    · rw [if_pos hany]
      obtain ⟨p0, hp0mem, hp0⟩ := List.any_eq_true.mp hany
      cases hfind : pats.find?
          ((fun pr => simAbove (normalize_roman_numerals pr.2.toList) nn)
            ∘ fun p => (st, p)) with
      | none =>
        exfalso
        have := List.find?_eq_none.mp hfind p0 hp0mem
        exact this hp0
      | some p1 => simp
    · rw [if_neg hany]
      have hnone : pats.find?
          ((fun pr => simAbove (normalize_roman_numerals pr.2.toList) nn)
            ∘ fun p => (st, p)) = none := by
        rw [List.find?_eq_none]
        intro x hx hpx
        exact hany (List.any_eq_true.mpr ⟨x, hx, hpx⟩)
      rw [hnone]
      simpa using ih

/-- Counterexample to C7: on the name `КПП АД-1` no alias substring matches,
the fallback returns `КПП ВД` (similarity 5/7, the first above 0.7 in
dictionary order), yet the dictionary entry `КПП НД-1` has the strictly
better similarity 7/8 — so the fallback does not return the entry with the
best similarity ratio. -/
theorem c7_counterexample :
    extract_surface_type "КПП АД-1" = some "КПП ВД"
    ∧ similarQ (normalize_roman_numerals "КПП НД-1".toList)
        (normalize_roman_numerals "КПП АД-1".toList)
      > similarQ (normalize_roman_numerals "КПП ВД".toList)
        (normalize_roman_numerals "КПП АД-1".toList)
    ∧ similarQ (normalize_roman_numerals "КПП ВД".toList)
        (normalize_roman_numerals "КПП АД-1".toList) > mkRat 7 10
    ∧ surfaceTypes.map (fun pr => pr.1) = ["ЭПК", "ШПП", "ПС КШ", "КПП ВД", "КПП НД-1", "КПП НД-2"] :=
  ⟨by decide, by decide, by decide, by decide⟩

/-- C7 as amended: when no alias substring matches, the similarity fallback
returns the FIRST dictionary entry (in dictionary and alias iteration order)
whose similarity ratio with the name exceeds 0.7 — not necessarily the best
one — and it returns `None` exactly when no alias exceeds the threshold. -/
theorem c7_amended (name : String)
    (h : findSubstrMatch (normalize_roman_numerals name.toList) surfaceTypes = none) :
    extract_surface_type name = firstAliasAbove name
    ∧ (extract_surface_type name = none ↔
        ∀ pr ∈ aliasPairs,
          simAbove (normalize_roman_numerals pr.2.toList)
            (normalize_roman_numerals name.toList) = false) := by
  have hmain : extract_surface_type name = firstAliasAbove name := by
    unfold extract_surface_type
    rw [h, findSimilar_eq_flat]
    rfl
  refine ⟨hmain, ?_⟩
  rw [hmain]
  unfold firstAliasAbove
  rw [Option.map_eq_none', List.find?_eq_none]
  constructor
  · intro hall pr hpr
    have := hall pr hpr
    simpa using this
  · intro hall pr hpr
    have h2 : simAbove (normalize_roman_numerals pr.2.data)
        (normalize_roman_numerals name.data) = false := hall pr hpr
    simp [h2]

/-- Witness for C7 as amended, at the name of the counterexample. -/
theorem c7_amended_witness :
    extract_surface_type "КПП АД-1" = firstAliasAbove "КПП АД-1" :=
  (c7_amended "КПП АД-1" (by decide)).1

/-- Invariants of one match stage: the originals of the entries it assigns
are pairwise distinct, none of them was in the incoming used set and all of
them are in the outgoing used set, the incoming used set survives into the
outgoing one, and every produced triple takes its record from the stage's
input and carries the stage tag. -/
theorem matchStage_inv {α : Type} (name : α → String)
    (pred : ParsedInfo → CorrectSample → Bool) (stage : String)
    (protos : List α) (corrects : List CorrectSample) (used : List String) :
    ((matchStage name pred stage protos corrects used).1.map
        (fun m => m.2.1.original)).Nodup
    ∧ (∀ o, o ∈ (matchStage name pred stage protos corrects used).1.map
          (fun m => m.2.1.original) →
        o ∉ used ∧ o ∈ (matchStage name pred stage protos corrects used).2)
    ∧ (∀ o ∈ used, o ∈ (matchStage name pred stage protos corrects used).2)
    ∧ (∀ m ∈ (matchStage name pred stage protos corrects used).1,
        m.1 ∈ protos ∧ m.2.2 = stage) := by
  induction protos generalizing used with
  | nil =>
    refine ⟨List.nodup_nil, ?_, ?_, ?_⟩
    · intro o ho
      simp [matchStage] at ho
    · intro o ho
      simpa [matchStage] using ho
    · intro m hm
      simp [matchStage] at hm
  | cons p ps ih =>
    cases hf : findEntry pred (parse_protocol_sample_name (name p)) used corrects with
    | none =>
      have heq : matchStage name pred stage (p :: ps) corrects used
          = matchStage name pred stage ps corrects used := by
        simp [matchStage, hf]
      rw [heq]
      obtain ⟨ha, hb, hc, hd⟩ := ih used
      exact ⟨ha, hb, hc, fun m hm => ⟨List.mem_cons_of_mem _ (hd m hm).1, (hd m hm).2⟩⟩
    | some c =>
      have hcu : c.original ∉ used := by
        have hp := List.find?_some hf
        simp at hp
        exact hp.1
      have heq : matchStage name pred stage (p :: ps) corrects used
          = ((p, c, stage) ::
              (matchStage name pred stage ps corrects (c.original :: used)).1,
             (matchStage name pred stage ps corrects (c.original :: used)).2) := by
        simp [matchStage, hf]
      rw [heq]
      obtain ⟨ha, hb, hc, hd⟩ := ih (c.original :: used)
      refine ⟨?_, ?_, ?_, ?_⟩
      · refine List.nodup_cons.mpr ⟨?_, ha⟩
        intro hmem
        exact (hb _ hmem).1 (List.mem_cons_self _ _)
      · intro o ho
        rcases List.mem_cons.mp ho with h1 | h1
        · subst h1
          exact ⟨hcu, hc _ (List.mem_cons_self _ _)⟩
        · refine ⟨fun hmem => (hb o h1).1 (List.mem_cons_of_mem _ hmem), (hb o h1).2⟩
      · intro o ho
        exact hc o (List.mem_cons_of_mem _ ho)
      · intro m hm
        rcases List.mem_cons.mp hm with h1 | h1
        · subst h1
          exact ⟨List.mem_cons_self _ _, rfl⟩
        · exact ⟨List.mem_cons_of_mem _ (hd m h1).1, (hd m h1).2⟩

/-- C1: in one reconciliation call, no canonical entry (tracked by its
original name, as the source's `used_correct` set does) is assigned to more
than one record across the two stages; no record is matched by both stages
(a record matched in stage 1 is excluded from stage 2's input); and a record
matched in neither stage appears in the unmatched output. -/
theorem c1_reconciliation_invariants {α : Type} [DecidableEq α] (name : α → String)
    (protos : List α) (corrects : List CorrectSample) :
    ((match_samples name protos corrects).1.map (fun m => m.2.1.original)).Nodup
    ∧ (∀ p c, (p, c, stageTubeOnly) ∈ (match_samples name protos corrects).1 →
        ∀ c', (p, c', stageTubeType) ∉ (match_samples name protos corrects).1)
    ∧ (∀ p ∈ protos, (∀ c st, (p, c, st) ∉ (match_samples name protos corrects).1) →
        p ∈ (match_samples name protos corrects).2) := by
  set S1 := matchStage name (fun i c => tubeMatch i c && typeMatch i c) stageTubeType
    protos corrects [] with hS1def
  set UN1 := protos.filter (fun s => !((S1.1.map (fun m => m.1)).contains s)) with hUN1def
  set S2 := matchStage name tubeMatch stageTubeOnly UN1 corrects S1.2 with hS2def
  set UN2 := UN1.filter (fun s => !((S2.1.map (fun m => m.1)).contains s)) with hUN2def
  have hms : match_samples name protos corrects = (S1.1 ++ S2.1, UN2) := rfl
  have inv1 := matchStage_inv name (fun i c => tubeMatch i c && typeMatch i c)
    stageTubeType protos corrects []
  rw [← hS1def] at inv1
  have inv2 := matchStage_inv name tubeMatch stageTubeOnly UN1 corrects S1.2
  rw [← hS2def] at inv2
  have hstages : stageTubeOnly ≠ stageTubeType := by decide
  refine ⟨?_, ?_, ?_⟩
  · rw [hms]
    rw [List.map_append, List.nodup_append]
    refine ⟨inv1.1, inv2.1, ?_⟩
    intro o h1 h2
    exact (inv2.2.1 o h2).1 (inv1.2.1 o h1).2
  · intro p c hmem c' hmem'
    rw [hms] at hmem hmem'
    rcases List.mem_append.mp hmem with h1 | h1
    · exact hstages ((inv1.2.2.2 _ h1).2)
    · have hpUN1 : p ∈ UN1 := (inv2.2.2.2 _ h1).1
      rcases List.mem_append.mp hmem' with h2 | h2
      · have hfilter := (List.mem_filter.mp hpUN1).2
        have hpmem : p ∈ S1.1.map (fun m => m.1) :=
          List.mem_map.mpr ⟨(p, c', stageTubeType), h2, rfl⟩
        simp [hpmem] at hfilter
      · exact hstages.symm ((inv2.2.2.2 _ h2).2)
  · intro p hp hnone
    have hp1 : p ∉ S1.1.map (fun m => m.1) := by
      intro hmem
      obtain ⟨m, hm, hfst⟩ := List.mem_map.mp hmem
      obtain ⟨m1, m2, m3⟩ := m
      cases hfst
      exact hnone m2 m3 (by rw [hms]; exact List.mem_append_left _ hm)
    have hpUN1 : p ∈ UN1 := List.mem_filter.mpr ⟨hp, by simpa using hp1⟩
    have hp2 : p ∉ S2.1.map (fun m => m.1) := by
      intro hmem
      obtain ⟨m, hm, hfst⟩ := List.mem_map.mp hmem
      obtain ⟨m1, m2, m3⟩ := m
      cases hfst
      exact hnone m2 m3 (by rw [hms]; exact List.mem_append_right _ hm)
    rw [hms]
    exact List.mem_filter.mpr ⟨hpUN1, by simpa using hp2⟩

/-- Witness for C1: a single record against an empty canonical list matches
nothing and appears in the unmatched output. -/
theorem c1_reconciliation_invariants_witness :
    "P1" ∈ (match_samples (fun s => s) ["P1"] ([] : List CorrectSample)).2 :=
  (c1_reconciliation_invariants (fun s => s) ["P1"] []).2.2 "P1"
    (List.mem_cons_self _ _)
    (fun c st hmem => by
      rw [show (match_samples (fun s : String => s) ["P1"]
        ([] : List CorrectSample)).1 = [] from rfl] at hmem
      exact List.not_mem_nil _ hmem)

/-- Assignment then lookup of the same key yields the assigned value. -/
theorem dget_dset_same (d : PyDict) (k : String) (v : PyVal) :
    dget (dset d k v) k = some v := by
  induction d with
  | nil => simp [dset, dget, List.find?]
  | cons kv t ih =>
    by_cases hk : kv.1 = k
    · simp [dset, hk, dget, List.find?]
    · simpa [dset, hk, dget, List.find?, hk] using ih

/-- Assignment to one key leaves the lookup of a different key unchanged. -/
theorem dget_dset_ne (d : PyDict) (k k' : String) (v : PyVal) (h : k ≠ k') :
    dget (dset d k v) k' = dget d k' := by
  induction d with
  | nil => simp [dset, dget, List.find?, h]
  | cons kv t ih =>
    by_cases hk : kv.1 = k
    · have h2 : ¬kv.1 = k' := by rw [hk]; exact h
      simp [dset, hk, dget, List.find?, h, h2]
    · by_cases hk' : kv.1 = k'
      · simp [dset, hk, dget, List.find?, hk', Ne.symm h]
      · simpa [dset, hk, dget, List.find?, hk'] using ih

/-- Protocol sample dict with the four fields produced by
`parse_protocol_file`, whose tube number matches nothing below. -/
def c9Sample : PyDict :=
  [("name", PyVal.vstr "обр 5"), ("steel_grade", PyVal.vnone),
   ("composition", PyVal.vcomp []), ("original_name", PyVal.vstr "обр 5")]

/-- Canonical list whose single row carries no tube number, so the sample
stays unmatched. -/
def c9Corrects : List CorrectSample :=
  [{ number := 1, original := "Труба А", surface_type := none,
     tube_number := none, letter := none }]

/-- Counterexample to C9: after `match_sample_names`, the unmatched input
record is NOT field-for-field equal to what it was — the call mutates it in
place, adding the keys `correct_number` and `automatically_matched` that were
absent before. -/
theorem c9_counterexample :
    dget ((match_sample_names [c9Sample] c9Corrects).2.getD 0 [])
        "automatically_matched" = some (PyVal.vbool false)
    ∧ dget c9Sample "automatically_matched" = none
    ∧ dget ((match_sample_names [c9Sample] c9Corrects).2.getD 0 [])
        "correct_number" = some PyVal.vnone
    ∧ dget c9Sample "correct_number" = none
    ∧ (match_sample_names [c9Sample] c9Corrects).2 ≠ [c9Sample] :=
  ⟨by decide, by decide, by decide, by decide, by decide⟩

/-- C9 as amended: with a nonempty canonical list, an input record that the
call matches is left unchanged (its returned variant is a fresh copy), while
an input record left unmatched is mutated in place: it is exactly the
original with `original_name` set to its current name, `correct_number` set
to `None` and `automatically_matched` set to `False`, every other field
keeping its value. -/
theorem c9_amended (samples : List PyDict) (corrects : List CorrectSample)
    (hc : corrects ≠ []) :
    ∀ pr ∈ samples.zip (match_sample_names samples corrects).2,
      (pr.1 ∈ (match_samples dictName samples corrects).1.map (fun m => m.1) →
        pr.2 = pr.1)
      ∧ (pr.1 ∉ (match_samples dictName samples corrects).1.map (fun m => m.1) →
          pr.2 = mutateUnmatched pr.1
          ∧ dget pr.2 "correct_number" = some PyVal.vnone
          ∧ dget pr.2 "automatically_matched" = some (PyVal.vbool false)
          ∧ (∀ k, k ≠ "original_name" → k ≠ "correct_number" →
              k ≠ "automatically_matched" → dget pr.2 k = dget pr.1 k)) := by
  have hce : corrects.isEmpty = false := by
    cases corrects with
    | nil => exact absurd rfl hc
    | cons c cs => rfl
  have hpost : (match_sample_names samples corrects).2
      = samples.map (fun s =>
          if ((match_samples dictName samples corrects).1.map (fun m => m.1)).contains s
          then s else mutateUnmatched s) := by
    simp [match_sample_names, hce]
  have hzip : ∀ (l : List PyDict) (f : PyDict → PyDict),
      l.zip (l.map f) = l.map (fun x => (x, f x)) := by
    intro l f
    induction l with
    | nil => rfl
    | cons a t ih => simp [ih]
  intro pr hpr
  rw [hpost, hzip] at hpr
  obtain ⟨x, hx, hxeq⟩ := List.mem_map.mp hpr
  subst hxeq
  constructor
  · intro hmem
    have hcont : ((match_samples dictName samples corrects).1.map (fun m => m.1)).contains x
        = true := List.elem_iff.mpr hmem
    show (if ((match_samples dictName samples corrects).1.map (fun m => m.1)).contains x
        then x else mutateUnmatched x) = x
    rw [hcont]
    rfl
  · intro hmem
    have hcont : ((match_samples dictName samples corrects).1.map (fun m => m.1)).contains x
        = false := by
      cases hb : ((match_samples dictName samples corrects).1.map (fun m => m.1)).contains x with
      | true => exact absurd (List.elem_iff.mp hb) hmem
      | false => rfl
    have hval : (if ((match_samples dictName samples corrects).1.map
          (fun m => m.1)).contains x then x else mutateUnmatched x) = mutateUnmatched x := by
      rw [hcont]
      rfl
    refine ⟨hval, ?_, ?_, ?_⟩
    · show dget (if ((match_samples dictName samples corrects).1.map
          (fun m => m.1)).contains x then x else mutateUnmatched x) "correct_number"
        = some PyVal.vnone
      rw [hval]
      unfold mutateUnmatched
      rw [dget_dset_ne _ _ _ _ (by decide), dget_dset_same]
    · show dget (if ((match_samples dictName samples corrects).1.map
          (fun m => m.1)).contains x then x else mutateUnmatched x) "automatically_matched"
        = some (PyVal.vbool false)
      rw [hval]
      unfold mutateUnmatched
      rw [dget_dset_same]
    · intro k hk1 hk2 hk3
      show dget (if ((match_samples dictName samples corrects).1.map
          (fun m => m.1)).contains x then x else mutateUnmatched x) k = dget x k
      rw [hval]
      unfold mutateUnmatched
      rw [dget_dset_ne _ _ _ _ (Ne.symm hk3), dget_dset_ne _ _ _ _ (Ne.symm hk2),
        dget_dset_ne _ _ _ _ (Ne.symm hk1)]

/-- Witness for C9 as amended: the concrete unmatched record keeps its
`composition` field while gaining the bookkeeping keys. -/
theorem c9_amended_witness :
    dget (mutateUnmatched c9Sample) "composition" = dget c9Sample "composition"
    ∧ dget (mutateUnmatched c9Sample) "correct_number" = some PyVal.vnone := by
  have h := c9_amended [c9Sample] c9Corrects (by decide)
    (c9Sample, mutateUnmatched c9Sample) (by decide)
  have h2 := h.2 (by decide)
  exact ⟨h2.2.2.2 "composition" (by decide) (by decide) (by decide), h2.2.1⟩

/-- Counterexample to C2: on the label `1-3` (matching `\d+-\d+`),
`extract_tube_number_from_protocol` returns the SECOND hyphen-delimited
group `3` (the maximum-valued bare integer), not the first group `1` that
the claim states, and it produces a single value, no sample index. -/
theorem c2_counterexample :
    extract_tube_number_from_protocol "1-3" = some "3"
    ∧ extract_tube_number_from_protocol "1-3" ≠ some "1" :=
  ⟨by decide, by decide⟩

/-- Search for a matcher that rejects every position whose head character is
not its start character returns nothing on a string free of that character. -/
theorem reSearch_none_of_head (m : List Char → Option (List Char)) (c₀ : Char)
    (hm : ∀ c t, c ≠ c₀ → m (c :: t) = none)
    (s : List Char) (hs : ∀ c ∈ s, c ≠ c₀) : reSearch m s = none := by
  induction s with
  | nil => rfl
  | cons c t ih =>
    have h1 : m (c :: t) = none := hm c t (hs c (List.mem_cons_self _ _))
    simp only [reSearch, h1]
    exact ih (fun c' hc' => hs c' (List.mem_cons_of_mem _ hc'))

/-- Matcher head lemma for the first protocol pattern. -/
theorem patTrDotNum_head (c : Char) (t : List Char) (h : c ≠ 'т') :
    patTrDotNum (c :: t) = none := by
  simp [patTrDotNum, matchLits, h]

/-- Matcher head lemma for the second protocol pattern. -/
theorem patTrNum_head (c : Char) (t : List Char) (h : c ≠ 'т') :
    patTrNum (c :: t) = none := by
  simp [patTrNum, matchLits, h]

/-- Matcher head lemma for the third protocol pattern. -/
theorem patTrubaNum_head (c : Char) (t : List Char) (h : c ≠ 'т') :
    patTrubaNum (c :: t) = none := by
  simp [patTrubaNum, matchLits, h]

/-- Matcher head lemma for the fourth protocol pattern. -/
theorem patTrDotPlain_head (c : Char) (t : List Char) (h : c ≠ 'т') :
    patTrDotPlain (c :: t) = none := by
  simp [patTrDotPlain, matchLits, h]

/-- Matcher head lemma for the parenthesized pattern. -/
theorem patParen_head (c : Char) (t : List Char) (h : c ≠ '(') :
    patParen (c :: t) = none := by
  simp [patParen, matchLits, h]

/-- Digit run continuation of the bare-integer tokenizer. -/
theorem tokensGo_digits (d : List Char) (hd : ∀ c ∈ d, c.isDigit)
    (cur : List Char) (hcur : cur ≠ []) (valid : Bool) (rest : List Char) :
    tokensGo true cur valid (d ++ rest) = tokensGo true (d.reverse ++ cur) valid rest := by
  induction d generalizing cur with
  | nil => simp
  | cons c d' ih =>
    have hc : c.isDigit := hd c (List.mem_cons_self _ _)
    have hne : cur.isEmpty = false := by
      cases cur with
      | nil => exact absurd rfl hcur
      | cons x xs => rfl
    show tokensGo true cur valid (c :: (d' ++ rest)) = _
    simp only [tokensGo, hc, hne, if_true, if_false, Bool.false_eq_true]
    rw [ih (fun c' hc' => hd c' (List.mem_cons_of_mem _ hc')) (c :: cur) (by simp)]
    simp

/-- Starting at a word boundary, a nonempty all-digit prefix is collected
whole by the tokenizer. -/
theorem tokensGo_start (a : List Char) (ha : a ≠ []) (hd : ∀ c ∈ a, c.isDigit)
    (rest : List Char) :
    tokensGo false [] true (a ++ rest) = tokensGo true a.reverse true rest := by
  cases a with
  | nil => exact absurd rfl ha
  | cons a0 a' =>
    have h0 : a0.isDigit := hd a0 (List.mem_cons_self _ _)
    show tokensGo false [] true (a0 :: (a' ++ rest)) = _
    simp only [tokensGo, h0, if_true, List.isEmpty_nil, Bool.not_false]
    by_cases hnil : a' = []
    · subst hnil
      simp
    · rw [tokensGo_digits a' (fun c hc => hd c (List.mem_cons_of_mem _ hc)) [a0]
        (by simp) true rest]
      simp

/-- Bare-integer tokens of a `digits-digits` label are exactly the two digit
groups. -/
theorem bareTokens_hyphen (a b : List Char) (ha : a ≠ []) (hb : b ≠ [])
    (hda : ∀ c ∈ a, c.isDigit) (hdb : ∀ c ∈ b, c.isDigit) :
    bareTokens (a ++ '-' :: b) = [a, b] := by
  unfold bareTokens
  rw [tokensGo_start a ha hda ('-' :: b)]
  have hra : a.reverse.isEmpty = false := by
    cases hrv : a.reverse with
    | nil => exact absurd (List.reverse_eq_nil_iff.mp hrv) ha
    | cons x xs => rfl
  have hdash1 : ('-' : Char).isDigit = false := by decide
  have hdash2 : isWordChar '-' = false := by decide
  show tokensGo true a.reverse true ('-' :: b) = [a, b]
  simp only [tokensGo, hdash1, hdash2, hra, Bool.not_false, Bool.and_true, Bool.true_and,
    Bool.false_eq_true, if_false, if_true, List.reverse_reverse]
  have hb2 : tokensGo false [] true b = [b] := by
    rw [show b = b ++ [] from (List.append_nil b).symm] at hdb ⊢
    rw [tokensGo_start b hb (by simpa using hdb) []]
    have hrb : b.reverse.isEmpty = false := by
      cases hrv : b.reverse with
      | nil => exact absurd (List.reverse_eq_nil_iff.mp hrv) hb
      | cons x xs => rfl
    simp [tokensGo, hrb]
  rw [hb2]
  rfl

/-- C2 as amended: for every label of the regular form `digits '-' digits`,
`extract_tube_number_from_protocol` returns the hyphen-delimited group with
the LARGER integer value (the first group on ties) — the label reaches the
maximum-bare-integer fallback because no explicit pattern can match — and no
sample index is produced. -/
theorem c2_amended (a b : List Char) (ha : a ≠ []) (hb : b ≠ [])
    (hda : ∀ c ∈ a, c.isDigit) (hdb : ∀ c ∈ b, c.isDigit) :
    extract_tube_number_from_protocol (String.mk (a ++ '-' :: b))
      = some (String.mk (if digitsToNat b > digitsToNat a then b else a)) := by
  have hchars : ∀ c ∈ a ++ '-' :: b, c.isDigit ∨ c = '-' := by
    intro c hc
    rcases List.mem_append.mp hc with h1 | h1
    · exact Or.inl (hda c h1)
    · rcases List.mem_cons.mp h1 with h2 | h2
      · exact Or.inr h2
      · exact Or.inl (hdb c h2)
  have hnoT : ∀ c ∈ a ++ '-' :: b, c ≠ 'т' := by
    intro c hc he
    rcases hchars c hc with h1 | h1
    · rw [he] at h1
      exact absurd h1 (by decide)
    · rw [he] at h1
      exact absurd h1 (by decide)
  have hnoP : ∀ c ∈ a ++ '-' :: b, c ≠ '(' := by
    intro c hc he
    rcases hchars c hc with h1 | h1
    · rw [he] at h1
      exact absurd h1 (by decide)
    · rw [he] at h1
      exact absurd h1 (by decide)
  have hs : (String.mk (a ++ '-' :: b)).data = a ++ '-' :: b := rfl
  have h0 : reSearch patTrDotNum (a ++ '-' :: b) = none :=
    reSearch_none_of_head _ 'т' patTrDotNum_head _ hnoT
  have h1 : reSearch patTrNum (a ++ '-' :: b) = none :=
    reSearch_none_of_head _ 'т' patTrNum_head _ hnoT
  have h2 : reSearch patTrubaNum (a ++ '-' :: b) = none :=
    reSearch_none_of_head _ 'т' patTrubaNum_head _ hnoT
  have h3 : reSearch patTrDotPlain (a ++ '-' :: b) = none :=
    reSearch_none_of_head _ 'т' patTrDotPlain_head _ hnoT
  have h4 : reSearch patParen (a ++ '-' :: b) = none :=
    reSearch_none_of_head _ '(' patParen_head _ hnoP
  have htok : bareTokens (a ++ '-' :: b) = [a, b] :=
    bareTokens_hyphen a b ha hb hda hdb
  unfold extract_tube_number_from_protocol
  rw [show (String.mk (a ++ '-' :: b)).toList = a ++ '-' :: b from rfl]
  simp only [protocolPatterns, List.findSome?_cons, h0, h1, h2, h3, h4, htok,
    List.findSome?_nil]
  rfl

/-- Witness for C2 as amended: the label `1-3` returns the larger second
group `3`. -/
theorem c2_amended_witness :
    extract_tube_number_from_protocol (String.mk (['1'] ++ '-' :: ['3']))
      = some (String.mk (if digitsToNat ['3'] > digitsToNat ['1'] then ['3'] else ['1'])) :=
  c2_amended ['1'] ['3'] (by decide) (by decide) (by decide) (by decide)
